import Mathlib

/-!
Shallow embedding of `src/utils.py` of the kindergarten photo organizer.

The Python code works with `datetime` values.  We model a `datetime` as a
pair of a day number (`rd`, days elapsed since 0001-01-01, which is a
Monday in the proleptic Gregorian calendar used by Python's `datetime`)
and a second-of-day counter.  `date.weekday()` is then `rd % 7`
(Monday = 0), `date - timedelta(days = k)` subtracts `k` from `rd`
keeping the time of day, and the civil fields (year, month, day) used by
`strftime`/`.year`/`.isocalendar()` are recovered from `rd` by the
calendar arithmetic below, which mirrors the proleptic Gregorian
calendar of Python's `datetime` module.
-/

/-- Proleptic Gregorian leap-year rule (as used by Python `datetime`). -/
def isLeap (y : Nat) : Bool := decide ((y % 4 = 0 ∧ y % 100 ≠ 0) ∨ y % 400 = 0)

/-- Number of days in year `y`. -/
def yearLen (y : Nat) : Nat := if isLeap y then 366 else 365

/-- Day number (days since 0001-01-01) of January 1 of year `y` (for `y ≥ 1`). -/
def daysBeforeYear (y : Nat) : Nat :=
  365 * (y - 1) + (y - 1) / 4 + (y - 1) / 400 - (y - 1) / 100

/-- Fuelled year extraction: starting from year `y` with `rem` days left,
peel off whole years.  With enough fuel it returns the year containing
the day and the zero-based day of year. -/
def yearOfAux : Nat → Nat → Nat → Nat × Nat
  | 0, y, rem => (y, rem)
  | fuel + 1, y, rem =>
    if rem < yearLen y then (y, rem) else yearOfAux fuel (y + 1) (rem - yearLen y)

/-- Year and zero-based day-of-year of day number `z`. -/
def yearAndDoy (z : Nat) : Nat × Nat := yearOfAux (z + 1) 1 z

/-- Month lengths, January first. -/
def monthLengths (leap : Bool) : List Nat :=
  [31, if leap then 29 else 28, 31, 30, 31, 30, 31, 31, 30, 31, 30, 31]

/-- From a list of month lengths, a first month number and a zero-based
day offset, compute the (month, one-based day) pair. -/
def dateOfDoy : List Nat → Nat → Nat → Nat × Nat
  | [], m, doy => (m, doy + 1)
  | len :: rest, m, doy =>
    if doy < len then (m, doy + 1) else dateOfDoy rest (m + 1) (doy - len)

/-- Civil (year, month, day) of a day number. -/
def civilFromDays (z : Nat) : Nat × Nat × Nat :=
  let yd := yearAndDoy z
  let md := dateOfDoy (monthLengths (isLeap yd.1)) 1 yd.2
  (yd.1, md.1, md.2)

/-- The ASCII digit character for `d < 10`. -/
def digitChar (d : Nat) : Char := Char.ofNat (48 + d)

/-- Two-digit zero-padded decimal rendering (Python `"%02d"` for values
below 100, which is the only way the source uses it: `year % 100`,
months `≤ 12` and days `≤ 31`). -/
def pad2d (n : Nat) : List Char := [digitChar (n / 10), digitChar (n % 10)]

/-- Character content of the weekly folder label
`f"{year % 100:02d}({start:%m-%d} ~ {end:%d})"`. -/
def labelChars (yy m d e : Nat) : List Char :=
  pad2d yy ++ '(' :: (pad2d m ++ '-' :: (pad2d d ++ ' ' :: '~' :: ' ' :: (pad2d e ++ [')'])))

/-- Character content of the full-range video label
`f"{first.year % 100:02d}({first:%m-%d} ~ {last:%m-%d})"`. -/
def rangeChars (yy m1 d1 m2 d2 : Nat) : List Char :=
  pad2d yy ++ '(' :: (pad2d m1 ++ '-' :: (pad2d d1 ++
    ' ' :: '~' :: ' ' :: (pad2d m2 ++ '-' :: (pad2d d2 ++ [')']))))

/-- Model of Python `datetime`: day number since 0001-01-01 (a Monday)
plus second of day. -/
structure PyDateTime where
  rd : Nat
  sec : Nat
deriving DecidableEq, Repr

/-- `datetime.weekday()`: Monday = 0. -/
def weekdayOf (dt : PyDateTime) : Nat := dt.rd % 7

/-- Python `<=` on datetimes: lexicographic on (day, second). -/
def dtLe (a b : PyDateTime) : Prop :=
  a.rd < b.rd ∨ (a.rd = b.rd ∧ a.sec ≤ b.sec)

instance : DecidableRel dtLe := fun a b => by
  unfold dtLe; infer_instance

/-- `dt - timedelta(seconds=1)` (defined for `dt` after 0001-01-01 00:00:00,
where Python would not underflow). -/
def pySubOneSecond (dt : PyDateTime) : PyDateTime :=
  if dt.sec = 0 then ⟨dt.rd - 1, 86399⟩ else ⟨dt.rd, dt.sec - 1⟩

/-- The weekly label as a function of the week-start day number
(`folder_name` in `get_week_range`). -/
def weekLabel (startRd : Nat) : String :=
  let c := civilFromDays startRd
  let e := civilFromDays (startRd + 6)
  String.mk (labelChars (c.1 % 100) c.2.1 c.2.2 e.2.2)

/-- Embedding of `get_week_range` (src/utils.py:43-58):
`start_of_week = date - timedelta(days=date.weekday())`,
`end_of_week = start_of_week + timedelta(days=6)`,
`folder_name = f"{year % 100:02d}({start:%m-%d} ~ {end:%d})"` with
`year = start_of_week.year`. -/
def get_week_range (date : PyDateTime) : String × PyDateTime × PyDateTime :=
  let start_of_week : PyDateTime := ⟨date.rd - weekdayOf date, date.sec⟩
  let end_of_week : PyDateTime := ⟨start_of_week.rd + 6, start_of_week.sec⟩
  (weekLabel start_of_week.rd, start_of_week, end_of_week)

/-!
### DateResolver: `get_image_date` (src/utils.py:13-41)

The Python function opens the image, walks the top-level EXIF directory
(`for tag_id in exifdata`) and, for the first entry whose tag name is
`DateTime`, `DateTimeOriginal` or `DateTimeDigitized`, returns
`datetime.strptime(value, "%Y:%m:%d %H:%M:%S")`.  Any exception inside
the `try` block — including a `strptime` parse failure — falls through
to the file-creation-time fallback, and if `os.path.getctime` itself
fails, to `datetime.now()`.

We embed the EXIF directory as a list of `(tag, raw string)` pairs in
iteration order, and `strptime` as an abstract `parse` function
(`none` = the exception path); the file creation time is an
`Option PyDateTime` (`none` = `os.path.getctime` raised), and the
wall clock is a `PyDateTime` argument.
-/

inductive ExifTag where
  | dateTime
  | dateTimeOriginal
  | dateTimeDigitized
  | other (id : Nat)
deriving DecidableEq, Repr

/-- Whether the tag is one of the three date tags the loop reacts to. -/
def isDateTag : ExifTag → Bool
  | .other _ => false
  | _ => true

/-- The raw string of the first date-tagged EXIF entry in iteration
order (the entry whose `strptime` result the Python loop returns). -/
def firstDateField (exifdata : List (ExifTag × String)) : Option String :=
  (exifdata.find? fun e => isDateTag e.1).map (·.2)

/-- Embedding of `get_image_date` (src/utils.py:13-41). -/
def get_image_date (parse : String → Option PyDateTime)
    (exifdata : List (ExifTag × String)) (ctime : Option PyDateTime)
    (now : PyDateTime) : PyDateTime :=
  match firstDateField exifdata with
  | some s =>
    match parse s with
    | some t => t
    | none => ctime.getD now
  | none => ctime.getD now

/-!
### FolderOrganizer: `organize_photos_by_week` (src/utils.py:60-94)

An uploaded file is a (name, declared media type) pair; its resolved
date is abstracted as a function `dateOf` (the composition of writing
the bytes to a temp file and `get_image_date`).  The Python `dict`
`result_folders` is an insertion-ordered association list; appending to
`result_folders[folder_name]` is `addToGroup`.
-/

structure UploadedFile where
  name : String
  type : String
deriving DecidableEq, Repr

/-- `uploaded_file.type.startswith('image/')`: the declared media type
begins with the characters `image/` (stated over the character lists,
which is what `str.startswith` compares). -/
def isImageFile (f : UploadedFile) : Bool :=
  ("image/" : String).data.isPrefixOf f.type.data

/-- Append `name` to the group keyed `lbl`, creating the key at the end
when absent (Python `dict` insertion-order semantics). -/
def addToGroup : List (String × List String) → String → String → List (String × List String)
  | [], lbl, name => [(lbl, [name])]
  | (k, v) :: rest, lbl, name =>
    if k = lbl then (k, v ++ [name]) :: rest else (k, v) :: addToGroup rest lbl name

/-- Embedding of `organize_photos_by_week` (src/utils.py:60-94), keeping
only the returned `result_folders` mapping (directory creation and file
copying are filesystem side effects outside the model). -/
def organize_photos_by_week (uploaded_files : List UploadedFile)
    (dateOf : UploadedFile → PyDateTime) : List (String × List String) :=
  uploaded_files.foldl
    (fun acc f =>
      if isImageFile f then addToGroup acc (get_week_range (dateOf f)).1 f.name else acc)
    []

/-- Python dict lookup with `[]` default, for reading a group. -/
def lookupGroup (g : List (String × List String)) (lbl : String) : List String :=
  ((g.find? fun p => p.1 == lbl).map (·.2)).getD []

/-- Total number of filenames recorded in the mapping. -/
def totalLen (g : List (String × List String)) : Nat := (g.map (·.2.length)).sum

/-!
### SlideshowAssembler: `create_slideshow_video` (src/utils.py:96-194)
-/

/-- ISO week number (`date.isocalendar()[1]`), computed from the day
number exactly as CPython does: relative to the Monday of the week
containing January 4. -/
def week1monday (y : Nat) : Nat :=
  let jan4 := daysBeforeYear y + 3
  jan4 - jan4 % 7

/-- `isocalendar()[1]` of the date with day number `rd`. -/
def isoWeekNum (rd : Nat) : Nat :=
  let y := (yearAndDoy rd).1
  if rd < week1monday y then (rd - week1monday (y - 1)) / 7 + 1
  else if week1monday (y + 1) ≤ rd then 1
  else (rd - week1monday y) / 7 + 1

/-- The full-range label of src/utils.py:132-134:
`f"{first_date.year % 100:02d}({first:%m-%d} ~ {last:%m-%d})"`. -/
def rangeLabel (first_date last_date : PyDateTime) : String :=
  let c := civilFromDays first_date.rd
  let e := civilFromDays last_date.rd
  String.mk (rangeChars (c.1 % 100) c.2.1 c.2.2 e.2.1 e.2.2)

/-- src/utils.py:127-134: single-week label when first and last share an
ISO week number, full-range label otherwise. -/
def deriveFolderName (first_date last_date : PyDateTime) : String :=
  if isoWeekNum first_date.rd = isoWeekNum last_date.rd then (get_week_range first_date).1
  else rangeLabel first_date last_date

/-- Sort key relation of `image_files_with_dates.sort(key=lambda x: x[1])`. -/
def slideLe (a b : UploadedFile × PyDateTime) : Prop := dtLe a.2 b.2

instance : DecidableRel slideLe := fun a b => by
  unfold slideLe; infer_instance

/-- The filtered, date-annotated, date-sorted list of
src/utils.py:100-117 (Python `list.sort` is stable; a stable sort's
output is uniquely determined, and `insertionSort` with a total
preorder is stable, which theorem `c8_stable_sort` below verifies). -/
def slideshowSorted (files : List UploadedFile)
    (dateOf : UploadedFile → PyDateTime) : List (UploadedFile × PyDateTime) :=
  List.insertionSort slideLe ((files.filter isImageFile).map fun f => (f, dateOf f))

/-- Decoded image dimensions (`cv2.imread(...).shape`); the content is
irrelevant to the verified claims. -/
structure Frame where
  hgt : Nat
  wid : Nat
deriving DecidableEq, Repr

/-- External environment of the video branch: `decode1` is the
dimension-establishing `cv2.imread` of src/utils.py:141, `decode2` the
per-frame `cv2.imread` of src/utils.py:160 (two separate filesystem
reads), `writerOpens` is `video_writer.isOpened()`, and `outputOk` is
`os.path.exists(video_path) and os.path.getsize(video_path) > 0`. -/
structure SlideEnv where
  decode1 : UploadedFile → Option Frame
  decode2 : UploadedFile → Option Frame
  writerOpens : Bool
  outputOk : Bool

/-- `os.path.join` for the shapes that occur here (relative second
argument). -/
def pyJoin (dir file : String) : String :=
  if dir = "" then file
  else if dir.endsWith "/" then dir ++ file
  else dir ++ "/" ++ file

/-- `processed_count` of src/utils.py:158-165: the number of sorted
entries whose per-frame decode succeeds. -/
def processedCount (env : SlideEnv) (sorted : List (UploadedFile × PyDateTime)) : Nat :=
  (sorted.filter fun x => (env.decode2 x.1).isSome).length

/-- src/utils.py:139-184 — everything after the filename derivation:
first-image decode, writer initialization, frame loop, zero-processed
check and output check, with the exact Korean diagnostics. -/
def slideshowEncode (env : SlideEnv) (output_dir folder_name : String)
    (first : UploadedFile × PyDateTime)
    (sorted : List (UploadedFile × PyDateTime)) : Option String × String :=
  let video_filename := folder_name ++ ".mov"
  let video_path := pyJoin output_dir video_filename
  match env.decode1 first.1 with
  | none => (none, "첫 번째 이미지를 읽을 수 없습니다.")
  | some _ =>
    if env.writerOpens then
      let processed := processedCount env sorted
      if processed = 0 then (none, "처리된 이미지가 없습니다.")
      else if env.outputOk then
        (some video_path,
          "비디오가 성공적으로 생성되었습니다: " ++ video_filename ++ " (" ++
            toString processed ++ "개 이미지 처리)")
      else (none, "비디오 파일이 제대로 생성되지 않았습니다.")
    else (none, "비디오 라이터를 초기화할 수 없습니다.")

/-- Embedding of `create_slideshow_video` (src/utils.py:96-194). -/
def create_slideshow_video (uploaded_files : List UploadedFile)
    (dateOf : UploadedFile → PyDateTime) (env : SlideEnv)
    (output_dir : String) : Option String × String :=
  match slideshowSorted uploaded_files dateOf with
  | [] => (none, "이미지 파일이 없습니다.")
  | first :: rest =>
    let last := (first :: rest).getLast (List.cons_ne_nil first rest)
    slideshowEncode env output_dir (deriveFolderName first.2 last.2) first (first :: rest)

/-- Claim-side resolver for C4, modelled from the claim's words: the
three metadata fields are tried in the fixed preference order
original-capture time, digitized time, generic modification time, and
the first successfully parsed field wins. -/
def specPriorityResolve (parse : String → Option PyDateTime)
    (exifdata : List (ExifTag × String)) (ctime : Option PyDateTime)
    (now : PyDateTime) : PyDateTime :=
  (((((exifdata.find? fun e => e.1 == ExifTag.dateTimeOriginal).map (·.2)).bind parse).orElse
      fun _ => ((exifdata.find? fun e => e.1 == ExifTag.dateTimeDigitized).map (·.2)).bind
        parse).orElse
    fun _ => ((exifdata.find? fun e => e.1 == ExifTag.dateTime).map (·.2)).bind
      parse).getD (ctime.getD now)

/-- `organize_photos_by_week`'s fold, started from an arbitrary
accumulated mapping (for induction). -/
def organizeFrom (dateOf : UploadedFile → PyDateTime)
    (acc : List (String × List String)) (files : List UploadedFile) :
    List (String × List String) :=
  files.foldl
    (fun acc f =>
      if isImageFile f then addToGroup acc (get_week_range (dateOf f)).1 f.name else acc)
    acc

instance : IsTotal (UploadedFile × PyDateTime) slideLe :=
  ⟨fun a b => by unfold slideLe dtLe; omega⟩

instance : IsTrans (UploadedFile × PyDateTime) slideLe :=
  ⟨fun a b c h1 h2 => by unfold slideLe dtLe at h1 h2 ⊢; omega⟩

/-! ### Calendar lemmas -/

lemma yearLen_ge365 (y : Nat) : 365 ≤ yearLen y := by
  unfold yearLen; split <;> omega

set_option maxHeartbeats 1600000 in
lemma daysBeforeYear_succ (y : Nat) (hy : 1 ≤ y) :
    daysBeforeYear (y + 1) = daysBeforeYear y + yearLen y := by
  unfold daysBeforeYear yearLen isLeap
  split_ifs with h
  · rw [decide_eq_true_eq] at h
    omega
  · rw [decide_eq_true_eq] at h
    omega

lemma daysBeforeYear_mono {y y' : Nat} (hy : 1 ≤ y) (h : y ≤ y') :
    daysBeforeYear y ≤ daysBeforeYear y' := by
  induction y', h using Nat.le_induction with
  | base => exact le_refl _
  | succ n hn ih =>
    have hs := daysBeforeYear_succ n (le_trans hy hn)
    omega

lemma yearOfAux_spec : ∀ (fuel y rem : Nat), 1 ≤ y → rem < 365 * fuel + 365 →
    1 ≤ (yearOfAux fuel y rem).1 ∧ y ≤ (yearOfAux fuel y rem).1 ∧
      (yearOfAux fuel y rem).2 < yearLen (yearOfAux fuel y rem).1 ∧
      daysBeforeYear (yearOfAux fuel y rem).1 + (yearOfAux fuel y rem).2 =
        daysBeforeYear y + rem := by
  intro fuel
  induction fuel with
  | zero =>
    intro y rem hy hrem
    have h365 := yearLen_ge365 y
    simp only [yearOfAux]
    exact ⟨hy, le_refl y, by omega, by trivial⟩
  | succ fuel ih =>
    intro y rem hy hrem
    simp only [yearOfAux]
    by_cases h : rem < yearLen y
    · simp only [if_pos h]
      exact ⟨hy, le_refl y, h, by trivial⟩
    · simp only [if_neg h]
      have hstep := daysBeforeYear_succ y hy
      have h365 := yearLen_ge365 y
      obtain ⟨a1, a2, a3, a4⟩ := ih (y + 1) (rem - yearLen y) (by omega) (by omega)
      exact ⟨a1, by omega, a3, by omega⟩

lemma yearAndDoy_spec (z : Nat) :
    1 ≤ (yearAndDoy z).1 ∧ (yearAndDoy z).2 < yearLen (yearAndDoy z).1 ∧
      daysBeforeYear (yearAndDoy z).1 + (yearAndDoy z).2 = z := by
  have h := yearOfAux_spec (z + 1) 1 z (le_refl 1) (by omega)
  have h0 : daysBeforeYear 1 = 0 := rfl
  unfold yearAndDoy
  exact ⟨h.1, h.2.2.1, by omega⟩

lemma yearAndDoy_eq (z y doy : Nat) (h1 : 1 ≤ y) (h2 : doy < yearLen y)
    (h3 : daysBeforeYear y + doy = z) : yearAndDoy z = (y, doy) := by
  obtain ⟨b1, b2, b3⟩ := yearAndDoy_spec z
  have hy : (yearAndDoy z).1 = y := by
    rcases Nat.lt_trichotomy (yearAndDoy z).1 y with h | h | h
    · have hs := daysBeforeYear_succ (yearAndDoy z).1 b1
      have hm := daysBeforeYear_mono (show 1 ≤ (yearAndDoy z).1 + 1 by omega)
        (show (yearAndDoy z).1 + 1 ≤ y by omega)
      omega
    · exact h
    · have hs := daysBeforeYear_succ y h1
      have hm := daysBeforeYear_mono (show 1 ≤ y + 1 by omega)
        (show y + 1 ≤ (yearAndDoy z).1 by omega)
      omega
  rw [Prod.ext_iff]
  refine ⟨hy, ?_⟩
  rw [hy] at b3
  omega

lemma dateOfDoy_fst_bounds : ∀ (L : List Nat) (m doy : Nat),
    m ≤ (dateOfDoy L m doy).1 ∧ (dateOfDoy L m doy).1 ≤ m + L.length := by
  intro L
  induction L with
  | nil => intro m doy; simp [dateOfDoy]
  | cons len rest ih =>
    intro m doy
    simp only [dateOfDoy]
    by_cases h : doy < len
    · simp only [if_pos h, List.length_cons]
      omega
    · simp only [if_neg h, List.length_cons]
      have := ih (m + 1) (doy - len)
      omega

lemma dateOfDoy_snd_le31 : ∀ (L : List Nat) (m doy : Nat),
    (∀ x ∈ L, x ≤ 31) → doy < L.sum → (dateOfDoy L m doy).2 ≤ 31 := by
  intro L
  induction L with
  | nil => intro m doy _ hs; simp at hs
  | cons len rest ih =>
    intro m doy h31 hs
    simp only [dateOfDoy]
    by_cases h : doy < len
    · simp only [if_pos h]
      have := h31 len (List.mem_cons_self len rest)
      omega
    · simp only [if_neg h]
      refine ih (m + 1) (doy - len) (fun x hx => h31 x (List.mem_cons_of_mem _ hx)) ?_
      simp only [List.sum_cons] at hs
      omega

lemma dateOfDoy_sevenApart : ∀ (L : List Nat) (m doy : Nat), doy + 7 < L.sum →
    dateOfDoy L m doy ≠ dateOfDoy L m (doy + 7) := by
  intro L
  induction L with
  | nil => intro m doy hs; simp at hs
  | cons len rest ih =>
    intro m doy hs
    simp only [List.sum_cons] at hs
    simp only [dateOfDoy]
    by_cases h1 : doy + 7 < len
    · have h0 : doy < len := by omega
      simp only [if_pos h0, if_pos h1]
      intro h
      rw [Prod.ext_iff] at h
      omega
    · by_cases h0 : doy < len
      · simp only [if_pos h0, if_neg h1]
        intro h
        have := (dateOfDoy_fst_bounds rest (m + 1) (doy + 7 - len)).1
        rw [Prod.ext_iff] at h
        omega
      · simp only [if_neg h0, if_neg h1]
        have heq : doy + 7 - len = (doy - len) + 7 := by omega
        rw [heq]
        exact ih (m + 1) (doy - len) (by omega)

lemma monthLengths_sum (y : Nat) : (monthLengths (isLeap y)).sum = yearLen y := by
  unfold monthLengths yearLen
  cases isLeap y <;> rfl

lemma monthLengths_le31 (b : Bool) : ∀ x ∈ monthLengths b, x ≤ 31 := by
  cases b <;> decide

lemma monthLengths_length (b : Bool) : (monthLengths b).length = 12 := by
  cases b <;> rfl

/-- Two day numbers exactly seven days apart never render the same
(two-digit year, month, day) triple: either they share a year, and then
the month/day pair moves, or the year steps by one, and then the
two-digit year moves. -/
lemma civil_differ_seven (z : Nat) :
    ((civilFromDays z).1 % 100, (civilFromDays z).2.1, (civilFromDays z).2.2) ≠
      ((civilFromDays (z + 7)).1 % 100, (civilFromDays (z + 7)).2.1,
        (civilFromDays (z + 7)).2.2) := by
  obtain ⟨b1, b2, b3⟩ := yearAndDoy_spec z
  by_cases h : (yearAndDoy z).2 + 7 < yearLen (yearAndDoy z).1
  · have h7 : yearAndDoy (z + 7) = ((yearAndDoy z).1, (yearAndDoy z).2 + 7) :=
      yearAndDoy_eq (z + 7) _ _ b1 h (by omega)
    unfold civilFromDays
    rw [h7]
    simp only
    intro hfalse
    simp only [Prod.mk.injEq] at hfalse
    have hne := dateOfDoy_sevenApart (monthLengths (isLeap (yearAndDoy z).1)) 1
      (yearAndDoy z).2 (by rw [monthLengths_sum]; exact h)
    exact hne (Prod.ext hfalse.2.1 hfalse.2.2)
  · have hlen := yearLen_ge365 ((yearAndDoy z).1 + 1)
    have hstep := daysBeforeYear_succ (yearAndDoy z).1 b1
    have h7 : yearAndDoy (z + 7) =
        ((yearAndDoy z).1 + 1, (yearAndDoy z).2 + 7 - yearLen (yearAndDoy z).1) :=
      yearAndDoy_eq (z + 7) _ _ (by omega) (by omega) (by omega)
    unfold civilFromDays
    rw [h7]
    simp only
    intro hfalse
    simp only [Prod.mk.injEq] at hfalse
    omega

/-! ### Label rendering lemmas -/

lemma digitChar_inj_fin : ∀ a b : Fin 10, digitChar a.val = digitChar b.val → a = b := by
  decide

lemma digitChar_inj {a b : Nat} (ha : a < 10) (hb : b < 10)
    (h : digitChar a = digitChar b) : a = b := by
  have := digitChar_inj_fin ⟨a, ha⟩ ⟨b, hb⟩ h
  simpa using congrArg Fin.val this

lemma pad2d_inj {a b : Nat} (ha : a < 100) (hb : b < 100)
    (h : pad2d a = pad2d b) : a = b := by
  unfold pad2d at h
  have h1 := List.head_eq_of_cons_eq h
  have h2 := List.head_eq_of_cons_eq (List.tail_eq_of_cons_eq h)
  have e1 := digitChar_inj (by omega) (by omega) h1
  have e2 := digitChar_inj (by omega) (by omega) h2
  omega

lemma pad2d_length (n : Nat) : (pad2d n).length = 2 := rfl

lemma labelChars_inj {yy1 m1 d1 e1 yy2 m2 d2 e2 : Nat}
    (hy1 : yy1 < 100) (hm1 : m1 < 100) (hd1 : d1 < 100)
    (hy2 : yy2 < 100) (hm2 : m2 < 100) (hd2 : d2 < 100)
    (h : labelChars yy1 m1 d1 e1 = labelChars yy2 m2 d2 e2) :
    yy1 = yy2 ∧ m1 = m2 ∧ d1 = d2 := by
  unfold labelChars at h
  obtain ⟨hA, hB⟩ := List.append_inj h (by rw [pad2d_length, pad2d_length])
  have hB' := List.tail_eq_of_cons_eq hB
  obtain ⟨hC, hD⟩ := List.append_inj hB' (by rw [pad2d_length, pad2d_length])
  have hD' := List.tail_eq_of_cons_eq hD
  obtain ⟨hE, _⟩ := List.append_inj hD' (by rw [pad2d_length, pad2d_length])
  exact ⟨pad2d_inj hy1 hy2 hA, pad2d_inj hm1 hm2 hC, pad2d_inj hd1 hd2 hE⟩

/-- Bounds on the civil rendering of any day number: the two-digit year,
month and day all fit in two digits. -/
lemma civilFromDays_bounds (z : Nat) :
    (civilFromDays z).1 % 100 < 100 ∧ (civilFromDays z).2.1 < 100 ∧
      (civilFromDays z).2.2 < 100 := by
  obtain ⟨b1, b2, b3⟩ := yearAndDoy_spec z
  unfold civilFromDays
  simp only
  refine ⟨Nat.mod_lt _ (by omega), ?_, ?_⟩
  · have := (dateOfDoy_fst_bounds (monthLengths (isLeap (yearAndDoy z).1)) 1
      (yearAndDoy z).2).2
    rw [monthLengths_length] at this
    omega
  · have := dateOfDoy_snd_le31 (monthLengths (isLeap (yearAndDoy z).1)) 1
      (yearAndDoy z).2 (monthLengths_le31 _) (by rw [monthLengths_sum]; exact b2)
    omega

/-- The weekly folder labels of two week starts seven days apart are
distinct strings. -/
lemma weekLabel_ne_seven (z : Nat) : weekLabel z ≠ weekLabel (z + 7) := by
  unfold weekLabel
  simp only
  intro h
  have hchars : labelChars ((civilFromDays z).1 % 100) (civilFromDays z).2.1
      (civilFromDays z).2.2 (civilFromDays (z + 6)).2.2 =
      labelChars ((civilFromDays (z + 7)).1 % 100) (civilFromDays (z + 7)).2.1
        (civilFromDays (z + 7)).2.2 (civilFromDays (z + 7 + 6)).2.2 := by
    have := congrArg String.data h
    simpa using this
  obtain ⟨q1, q2, q3⟩ := civilFromDays_bounds z
  obtain ⟨r1, r2, r3⟩ := civilFromDays_bounds (z + 7)
  obtain ⟨w1, w2, w3⟩ := labelChars_inj q1 q2 q3 r1 r2 r3 hchars
  exact civil_differ_seven z (by simp [Prod.ext_iff, w1, w2, w3])

/-!
## Claims
-/

/-- C1 (counterexample): at the timestamp 0001-01-10 01:00:00 (day
number 9, second 3600), `get_week_range` does not return the week start
at midnight: the start keeps the input's time of day (second 3600), so
the claim's "start ... at midnight" is false as stated. -/
theorem c1_counterexample :
    (get_week_range ⟨9, 3600⟩).2.1 ≠ (⟨7, 0⟩ : PyDateTime) ∧
      (get_week_range ⟨9, 3600⟩).2.1 = ⟨7, 3600⟩ := by
  decide

/-- C1 (amended): for every timestamp `ts`, `get_week_range ts` returns
a start whose day is `ts`'s calendar date minus its weekday index
(Monday = 0) days — so the start is a Monday — but at `ts`'s own time of
day rather than midnight; the end is start plus 6 days (same time of
day); and the label is `"{YY}({start:MM-DD} ~ {end:DD})"` with `YY` the
two-digit year of the start. -/
theorem c1_week_range (ts : PyDateTime) :
    (get_week_range ts).2.1.rd + weekdayOf ts = ts.rd ∧
      weekdayOf (get_week_range ts).2.1 = 0 ∧
      (get_week_range ts).2.1.sec = ts.sec ∧
      (get_week_range ts).2.2 =
        ⟨(get_week_range ts).2.1.rd + 6, (get_week_range ts).2.1.sec⟩ ∧
      (get_week_range ts).1 =
        String.mk (labelChars ((civilFromDays (get_week_range ts).2.1.rd).1 % 100)
          (civilFromDays (get_week_range ts).2.1.rd).2.1
          (civilFromDays (get_week_range ts).2.1.rd).2.2
          (civilFromDays ((get_week_range ts).2.1.rd + 6)).2.2) := by
  unfold get_week_range weekdayOf weekLabel
  simp only
  refine ⟨by omega, by omega, by trivial, by trivial, by trivial⟩

/-- C2: (i) any two timestamps lying in the same Monday-to-Sunday span
(days `m` to `m + 6` for a Monday day number `m`) get byte-identical
labels; (ii) a Monday timestamp and the timestamp six days later share
a label; (iii) one second before a Monday midnight — the prior Sunday —
gets a different label belonging to the week starting seven days
earlier. -/
theorem c2_label_weeks :
    (∀ t1 t2 : PyDateTime, ∀ m : Nat, m % 7 = 0 → m ≤ t1.rd → t1.rd ≤ m + 6 →
      m ≤ t2.rd → t2.rd ≤ m + 6 → (get_week_range t1).1 = (get_week_range t2).1) ∧
    (∀ t : PyDateTime, weekdayOf t = 0 →
      (get_week_range t).1 = (get_week_range ⟨t.rd + 6, t.sec⟩).1) ∧
    (∀ t : PyDateTime, weekdayOf t = 0 → t.sec = 0 → 1 ≤ t.rd →
      (get_week_range (pySubOneSecond t)).1 ≠ (get_week_range t).1 ∧
      (get_week_range (pySubOneSecond t)).2.1.rd + 7 = (get_week_range t).2.1.rd) := by
  refine ⟨?_, ?_, ?_⟩
  · intro t1 t2 m hm h1 h2 h3 h4
    show weekLabel (t1.rd - weekdayOf t1) = weekLabel (t2.rd - weekdayOf t2)
    have e1 : t1.rd - weekdayOf t1 = m := by unfold weekdayOf; omega
    have e2 : t2.rd - weekdayOf t2 = m := by unfold weekdayOf; omega
    rw [e1, e2]
  · intro t ht
    show weekLabel (t.rd - weekdayOf t) =
      weekLabel ((⟨t.rd + 6, t.sec⟩ : PyDateTime).rd - weekdayOf ⟨t.rd + 6, t.sec⟩)
    unfold weekdayOf at ht ⊢
    have e1 : t.rd - t.rd % 7 = t.rd := by omega
    have e2 : (⟨t.rd + 6, t.sec⟩ : PyDateTime).rd - (⟨t.rd + 6, t.sec⟩ : PyDateTime).rd % 7
        = t.rd := by simp only; omega
    rw [e1, e2]
  · intro t ht hsec hrd
    unfold weekdayOf at ht
    have h7 : 7 ≤ t.rd := by omega
    have hsub : pySubOneSecond t = ⟨t.rd - 1, 86399⟩ := by
      unfold pySubOneSecond
      rw [if_pos hsec]
    constructor
    · show weekLabel ((pySubOneSecond t).rd - weekdayOf (pySubOneSecond t)) ≠
        weekLabel (t.rd - weekdayOf t)
      rw [hsub]
      unfold weekdayOf
      simp only
      have e1 : t.rd - 1 - (t.rd - 1) % 7 = t.rd - 7 := by omega
      have e2 : t.rd - t.rd % 7 = t.rd := by omega
      rw [e1, e2]
      have := weekLabel_ne_seven (t.rd - 7)
      have e3 : t.rd - 7 + 7 = t.rd := by omega
      rw [e3] at this
      exact this
    · show (pySubOneSecond t).rd - weekdayOf (pySubOneSecond t) + 7 =
        t.rd - weekdayOf t
      rw [hsub]
      unfold weekdayOf
      simp only
      omega

/-- Witness for C2 at concrete inputs: days 8 and 12 (same week as
Monday day 7) share a label; Monday day 7 and day 13 share a label; one
second before Monday day 7 falls in the week starting at day 0. -/
theorem c2_witness :
    (get_week_range ⟨8, 0⟩).1 = (get_week_range ⟨12, 100⟩).1 ∧
      (get_week_range ⟨7, 0⟩).1 = (get_week_range ⟨13, 0⟩).1 ∧
      ((get_week_range (pySubOneSecond ⟨7, 0⟩)).1 ≠ (get_week_range ⟨7, 0⟩).1 ∧
        (get_week_range (pySubOneSecond ⟨7, 0⟩)).2.1.rd + 7 =
          (get_week_range ⟨7, 0⟩).2.1.rd) :=
  ⟨c2_label_weeks.1 ⟨8, 0⟩ ⟨12, 100⟩ 7 (by decide) (by decide) (by decide)
      (by decide) (by decide),
    c2_label_weeks.2.1 ⟨7, 0⟩ (by decide),
    c2_label_weeks.2.2 ⟨7, 0⟩ (by decide) (by decide) (by decide)⟩

/-- C4 (counterexample): with EXIF iteration order putting the generic
modification field (`DateTime`) before the original-capture field
(`DateTimeOriginal`), both parseable, the code returns the parse of the
modification field, not of the higher-priority original-capture field:
the fixed preference order claimed by the spec does not hold. -/
theorem c4_counterexample :
    get_image_date (fun s => if s = "a" then some ⟨1, 0⟩ else some ⟨2, 0⟩)
        [(ExifTag.dateTime, "a"), (ExifTag.dateTimeOriginal, "b")] none ⟨0, 0⟩ ≠
      specPriorityResolve (fun s => if s = "a" then some ⟨1, 0⟩ else some ⟨2, 0⟩)
        [(ExifTag.dateTime, "a"), (ExifTag.dateTimeOriginal, "b")] none ⟨0, 0⟩ := by
  decide

/-- C4 (amended): the resolver reacts to the first entry of the EXIF
directory, in iteration order, whose tag is one of the three date
fields: if that entry parses, its parse is returned; if it fails to
parse, the whole metadata tier is abandoned for the storage fallback
(it does not fall through to the next field); if no date-tagged entry
exists the storage fallback is used. -/
theorem c4_first_field (parse : String → Option PyDateTime)
    (exifdata : List (ExifTag × String)) (ctime : Option PyDateTime)
    (now : PyDateTime) :
    (∀ s t, firstDateField exifdata = some s → parse s = some t →
      get_image_date parse exifdata ctime now = t) ∧
    (∀ s, firstDateField exifdata = some s → parse s = none →
      get_image_date parse exifdata ctime now = ctime.getD now) ∧
    (firstDateField exifdata = none →
      get_image_date parse exifdata ctime now = ctime.getD now) := by
  unfold get_image_date
  refine ⟨?_, ?_, ?_⟩
  · intro s t h1 h2
    rw [h1]
    simp [h2]
  · intro s h1 h2
    rw [h1]
    simp [h2]
  · intro h1
    rw [h1]

/-- Witness for C4 (amended) at concrete inputs covering all three
branches. -/
theorem c4_witness :
    get_image_date (fun _ => some ⟨3, 0⟩) [(ExifTag.other 5, "x"), (ExifTag.dateTimeOriginal, "g")]
        (some ⟨8, 0⟩) ⟨9, 9⟩ = ⟨3, 0⟩ ∧
      get_image_date (fun _ => none) [(ExifTag.dateTimeDigitized, "g")] (some ⟨8, 0⟩) ⟨9, 9⟩ =
        ⟨8, 0⟩ ∧
      get_image_date (fun _ => some ⟨3, 0⟩) [(ExifTag.other 5, "x")] (some ⟨8, 0⟩) ⟨9, 9⟩ =
        ⟨8, 0⟩ :=
  ⟨(c4_first_field _ _ _ _).1 "g" ⟨3, 0⟩ (by decide) rfl,
    (c4_first_field _ _ _ _).2.1 "g" (by decide) rfl,
    (c4_first_field _ _ _ _).2.2 (by decide)⟩

/-- C5: the resolver is total (it is a Lean function into `PyDateTime`,
so it never fails outward), and when no date-tagged metadata entry
parses it returns the storage-layer creation timestamp when available,
and the current wall-clock time otherwise — the three-tier degrading
fallback. -/
theorem c5_resolver_fallback (parse : String → Option PyDateTime)
    (exifdata : List (ExifTag × String)) (ctime : Option PyDateTime)
    (now : PyDateTime)
    (h : ∀ p ∈ exifdata, isDateTag p.1 = true → parse p.2 = none) :
    get_image_date parse exifdata ctime now = ctime.getD now ∧
      (ctime = none → get_image_date parse exifdata ctime now = now) := by
  have hmain : get_image_date parse exifdata ctime now = ctime.getD now := by
    unfold get_image_date
    cases hf : firstDateField exifdata with
    | none => rfl
    | some s =>
      unfold firstDateField at hf
      cases hfind : exifdata.find? fun e => isDateTag e.1 with
      | none =>
        rw [hfind] at hf
        exact Option.noConfusion hf
      | some e =>
        rw [hfind] at hf
        simp only [Option.map_some'] at hf
        have hmem := List.mem_of_find?_eq_some hfind
        have htag := List.find?_some hfind
        have hp := h e hmem htag
        have hs : e.2 = s := by injection hf
        rw [hs] at hp
        simp [hp]
  refine ⟨hmain, fun hc => ?_⟩
  rw [hmain, hc]
  rfl

/-- Witness for C5: an unparseable date field falls back to the
creation time; with the creation time unavailable it falls back to the
wall clock. -/
theorem c5_witness :
    get_image_date (fun _ => none) [(ExifTag.dateTime, "bad")] (some ⟨5, 0⟩) ⟨9, 9⟩ = ⟨5, 0⟩ ∧
      get_image_date (fun _ => none) [(ExifTag.dateTime, "bad")] none ⟨9, 9⟩ = ⟨9, 9⟩ :=
  ⟨(c5_resolver_fallback _ _ _ _ (by decide)).1,
    (c5_resolver_fallback _ _ _ _ (by decide)).2 rfl⟩

/-! ### Organizer lemmas -/

lemma organize_eq_organizeFrom (files : List UploadedFile)
    (dateOf : UploadedFile → PyDateTime) :
    organize_photos_by_week files dateOf = organizeFrom dateOf [] files := rfl

lemma organizeFrom_cons (dateOf : UploadedFile → PyDateTime)
    (acc : List (String × List String)) (f : UploadedFile) (fs : List UploadedFile) :
    organizeFrom dateOf acc (f :: fs) =
      organizeFrom dateOf
        (if isImageFile f then addToGroup acc (get_week_range (dateOf f)).1 f.name else acc)
        fs := by
  cases h : isImageFile f <;> simp [organizeFrom, h]

lemma lookupGroup_addToGroup_same (g : List (String × List String)) (lbl n : String) :
    lookupGroup (addToGroup g lbl n) lbl = lookupGroup g lbl ++ [n] := by
  induction g with
  | nil => simp [addToGroup, lookupGroup]
  | cons p g ih =>
    obtain ⟨k, v⟩ := p
    by_cases hk : k = lbl
    · subst hk
      simp [addToGroup, lookupGroup, List.find?]
    · simp only [addToGroup, if_neg hk]
      unfold lookupGroup
      rw [List.find?_cons_of_neg _ (by simp [hk]), List.find?_cons_of_neg _ (by simp [hk])]
      exact ih

lemma lookupGroup_addToGroup_ne (g : List (String × List String)) (lbl lbl' n : String)
    (h : lbl' ≠ lbl) :
    lookupGroup (addToGroup g lbl n) lbl' = lookupGroup g lbl' := by
  induction g with
  | nil =>
    simp only [addToGroup]
    unfold lookupGroup
    rw [List.find?_cons_of_neg _ (by simp [Ne.symm h])]
  | cons p g ih =>
    obtain ⟨k, v⟩ := p
    by_cases hk : k = lbl
    · have e : addToGroup ((k, v) :: g) lbl n = (k, v ++ [n]) :: g := by
        simp [addToGroup, hk]
      rw [e]
      unfold lookupGroup
      rw [List.find?_cons_of_neg _ (by simp [hk, Ne.symm h]),
        List.find?_cons_of_neg _ (by simp [hk, Ne.symm h])]
    · have e : addToGroup ((k, v) :: g) lbl n = (k, v) :: addToGroup g lbl n := by
        simp [addToGroup, hk]
      rw [e]
      by_cases hk' : k = lbl'
      · unfold lookupGroup
        rw [List.find?_cons_of_pos _ (by simp [hk']),
          List.find?_cons_of_pos _ (by simp [hk'])]
      · unfold lookupGroup
        rw [List.find?_cons_of_neg _ (by simp [hk']),
          List.find?_cons_of_neg _ (by simp [hk'])]
        exact ih

lemma keys_addToGroup (g : List (String × List String)) (lbl n : String) :
    (addToGroup g lbl n).map (·.1) =
      if lbl ∈ g.map (·.1) then g.map (·.1) else g.map (·.1) ++ [lbl] := by
  induction g with
  | nil => simp [addToGroup]
  | cons p g ih =>
    obtain ⟨k, v⟩ := p
    by_cases hk : k = lbl
    · subst hk
      simp [addToGroup]
    · simp only [addToGroup, if_neg hk, List.map_cons, ih]
      by_cases hmem : lbl ∈ g.map (·.1)
      · rw [if_pos hmem, if_pos (by simp [hmem])]
      · rw [if_neg hmem, if_neg (by simp [hmem, Ne.symm hk])]
        simp

lemma mem_keys_addToGroup (g : List (String × List String)) (lbl lbl' n : String) :
    lbl' ∈ (addToGroup g lbl n).map (·.1) ↔ lbl' ∈ g.map (·.1) ∨ lbl' = lbl := by
  rw [keys_addToGroup]
  by_cases hmem : lbl ∈ g.map (·.1)
  · rw [if_pos hmem]
    constructor
    · exact fun h => Or.inl h
    · rintro (h | h)
      · exact h
      · rw [h]; exact hmem
  · rw [if_neg hmem]
    simp

lemma nodup_keys_addToGroup (g : List (String × List String)) (lbl n : String)
    (h : (g.map (·.1)).Nodup) : ((addToGroup g lbl n).map (·.1)).Nodup := by
  rw [keys_addToGroup]
  by_cases hmem : lbl ∈ g.map (·.1)
  · rw [if_pos hmem]; exact h
  · rw [if_neg hmem]
    simp [List.nodup_append, h, hmem]

lemma totalLen_addToGroup (g : List (String × List String)) (lbl n : String) :
    totalLen (addToGroup g lbl n) = totalLen g + 1 := by
  induction g with
  | nil => simp [addToGroup, totalLen]
  | cons p g ih =>
    obtain ⟨k, v⟩ := p
    by_cases hk : k = lbl
    · subst hk
      simp [addToGroup, totalLen]
      omega
    · simp only [addToGroup, if_neg hk]
      unfold totalLen at ih ⊢
      simp only [List.map_cons, List.sum_cons]
      omega

lemma organizeFrom_lookup (dateOf : UploadedFile → PyDateTime) :
    ∀ (fs : List UploadedFile) (acc : List (String × List String)) (lbl : String),
    lookupGroup (organizeFrom dateOf acc fs) lbl =
      lookupGroup acc lbl ++
        ((fs.filter fun f =>
          isImageFile f && ((get_week_range (dateOf f)).1 == lbl)).map (·.name)) := by
  intro fs
  induction fs with
  | nil =>
    intro acc lbl
    simp [organizeFrom]
  | cons f fs ih =>
    intro acc lbl
    rw [organizeFrom_cons]
    by_cases himg : isImageFile f
    · rw [if_pos himg, ih]
      by_cases hl : (get_week_range (dateOf f)).1 = lbl
      · rw [hl, lookupGroup_addToGroup_same,
          List.filter_cons_of_pos (by simp [himg, hl])]
        simp
      · rw [lookupGroup_addToGroup_ne _ _ _ _ (fun hh => hl hh.symm),
          List.filter_cons_of_neg (by simp [himg, hl])]
    · rw [if_neg himg, ih, List.filter_cons_of_neg (by simp [himg])]

lemma organizeFrom_totalLen (dateOf : UploadedFile → PyDateTime) :
    ∀ (fs : List UploadedFile) (acc : List (String × List String)),
    totalLen (organizeFrom dateOf acc fs) = totalLen acc + (fs.filter isImageFile).length := by
  intro fs
  induction fs with
  | nil => intro acc; simp [organizeFrom]
  | cons f fs ih =>
    intro acc
    rw [organizeFrom_cons]
    by_cases himg : isImageFile f
    · rw [if_pos himg, ih, totalLen_addToGroup,
        List.filter_cons_of_pos (by simp [himg])]
      simp
      omega
    · rw [if_neg himg, ih, List.filter_cons_of_neg (by simp [himg])]

lemma organizeFrom_keys_mem (dateOf : UploadedFile → PyDateTime) :
    ∀ (fs : List UploadedFile) (acc : List (String × List String)) (lbl : String),
    lbl ∈ (organizeFrom dateOf acc fs).map (·.1) ↔
      lbl ∈ acc.map (·.1) ∨
        lbl ∈ (fs.filter isImageFile).map fun f => (get_week_range (dateOf f)).1 := by
  intro fs
  induction fs with
  | nil => intro acc lbl; simp [organizeFrom]
  | cons f fs ih =>
    intro acc lbl
    rw [organizeFrom_cons]
    by_cases himg : isImageFile f
    · rw [if_pos himg, ih, List.filter_cons_of_pos (by simp [himg])]
      rw [mem_keys_addToGroup, List.map_cons, List.mem_cons]
      exact or_assoc
    · rw [if_neg himg, ih, List.filter_cons_of_neg (by simp [himg])]

lemma organizeFrom_keys_nodup (dateOf : UploadedFile → PyDateTime) :
    ∀ (fs : List UploadedFile) (acc : List (String × List String)),
    (acc.map (·.1)).Nodup → ((organizeFrom dateOf acc fs).map (·.1)).Nodup := by
  intro fs
  induction fs with
  | nil => intro acc h; simpa [organizeFrom] using h
  | cons f fs ih =>
    intro acc h
    rw [organizeFrom_cons]
    by_cases himg : isImageFile f
    · rw [if_pos himg]
      exact ih _ (nodup_keys_addToGroup _ _ _ h)
    · rw [if_neg himg]
      exact ih _ h

lemma organizeFrom_filter (dateOf : UploadedFile → PyDateTime) :
    ∀ (fs : List UploadedFile) (acc : List (String × List String)),
    organizeFrom dateOf acc (fs.filter isImageFile) = organizeFrom dateOf acc fs := by
  intro fs
  induction fs with
  | nil => intro acc; rfl
  | cons f fs ih =>
    intro acc
    by_cases himg : isImageFile f
    · rw [List.filter_cons_of_pos (by simp [himg]), organizeFrom_cons, organizeFrom_cons]
      exact ih _
    · rw [List.filter_cons_of_neg (by simp [himg]), organizeFrom_cons, if_neg himg]
      exact ih _

/-- C6: over any batch, the organizer's mapping records exactly as many
filenames as there are image-typed entries; it has exactly as many
groups as there are distinct week labels among the image entries; and
non-image entries are silently skipped (organizing the batch equals
organizing its image-typed sublist). -/
theorem c6_organize_counts (files : List UploadedFile)
    (dateOf : UploadedFile → PyDateTime) :
    totalLen (organize_photos_by_week files dateOf) = (files.filter isImageFile).length ∧
      ((organize_photos_by_week files dateOf).map (·.1)).length =
        (((files.filter isImageFile).map fun f => (get_week_range (dateOf f)).1).dedup).length ∧
      organize_photos_by_week files dateOf =
        organize_photos_by_week (files.filter isImageFile) dateOf := by
  refine ⟨?_, ?_, ?_⟩
  · rw [organize_eq_organizeFrom, organizeFrom_totalLen]
    simp [totalLen]
  · have hnd : ((organize_photos_by_week files dateOf).map (·.1)).Nodup := by
      rw [organize_eq_organizeFrom]
      exact organizeFrom_keys_nodup dateOf files [] (by simp)
    have hmem : ∀ lbl, lbl ∈ (organize_photos_by_week files dateOf).map (·.1) ↔
        lbl ∈ (files.filter isImageFile).map fun f => (get_week_range (dateOf f)).1 := by
      intro lbl
      rw [organize_eq_organizeFrom, organizeFrom_keys_mem]
      simp
    rw [← List.toFinset_card_of_nodup hnd, ← List.card_toFinset]
    congr 1
    ext x
    simp only [List.mem_toFinset]
    exact hmem x
  · rw [organize_eq_organizeFrom, organize_eq_organizeFrom, organizeFrom_filter]

/-- C7: within any label, the organizer's file list is exactly the
names of the image-typed entries bucketed to that label, in input
arrival order — so if image A arrives before image B and both get the
same label, A's name precedes B's name in the group. -/
theorem c7_arrival_order (files : List UploadedFile)
    (dateOf : UploadedFile → PyDateTime) (lbl : String) :
    lookupGroup (organize_photos_by_week files dateOf) lbl =
      ((files.filter fun f =>
        isImageFile f && ((get_week_range (dateOf f)).1 == lbl)).map (·.name)) := by
  rw [organize_eq_organizeFrom, organizeFrom_lookup]
  simp [lookupGroup]

/-! ### Sorting lemmas -/

lemma dtLe_refl (a : PyDateTime) : dtLe a a := by unfold dtLe; omega

lemma dtLe_trans {a b c : PyDateTime} (h1 : dtLe a b) (h2 : dtLe b c) : dtLe a c := by
  unfold dtLe at h1 h2 ⊢; omega

lemma dtLe_total (a b : PyDateTime) : dtLe a b ∨ dtLe b a := by
  unfold dtLe; omega

lemma filter_orderedInsert (d : PyDateTime) (a : UploadedFile × PyDateTime) :
    ∀ l : List (UploadedFile × PyDateTime),
    (List.orderedInsert slideLe a l).filter (fun x => x.2 = d) =
      if a.2 = d then a :: l.filter (fun x => x.2 = d)
      else l.filter (fun x => x.2 = d) := by
  intro l
  induction l with
  | nil =>
    simp only [List.orderedInsert, List.filter_cons, List.filter_nil]
    split <;> simp_all
  | cons b l ih =>
    simp only [List.orderedInsert]
    by_cases hr : slideLe a b
    · rw [if_pos hr]
      simp only [List.filter_cons]
      split <;> split <;> simp_all
    · rw [if_neg hr]
      by_cases hb : b.2 = d
      · have ha : ¬(a.2 = d) := by
          intro ha
          apply hr
          unfold slideLe dtLe
          rw [ha, hb]
          omega
        simp only [List.filter_cons, ih]
        simp [ha, hb]
      · simp only [List.filter_cons, ih]
        by_cases ha : a.2 = d <;> simp [ha, hb]

lemma filter_insertionSort (d : PyDateTime) :
    ∀ l : List (UploadedFile × PyDateTime),
    (List.insertionSort slideLe l).filter (fun x => x.2 = d) =
      l.filter (fun x => x.2 = d) := by
  intro l
  induction l with
  | nil => rfl
  | cons a l ih =>
    simp only [List.insertionSort, filter_orderedInsert, ih, List.filter_cons]
    split <;> simp_all

/-- C8: the assembler's sort is ascending by resolved timestamp and
stable: for every timestamp value, the entries carrying it appear in
the sorted output exactly as in the filtered input, in arrival order. -/
theorem c8_stable_sort (files : List UploadedFile) (dateOf : UploadedFile → PyDateTime) :
    List.Sorted slideLe (slideshowSorted files dateOf) ∧
      ∀ d : PyDateTime,
        (slideshowSorted files dateOf).filter (fun x => x.2 = d) =
          ((files.filter isImageFile).map fun f => (f, dateOf f)).filter
            (fun x => x.2 = d) :=
  ⟨List.sorted_insertionSort slideLe _, fun d => filter_insertionSort d _⟩

lemma sorted_le_getLast :
    ∀ (l : List (UploadedFile × PyDateTime)) (hne : l ≠ []),
      List.Sorted slideLe l → ∀ x ∈ l, dtLe x.2 (l.getLast hne).2 := by
  intro l
  induction l with
  | nil => intro hne; exact absurd rfl hne
  | cons a t ih =>
    intro hne hsort x hx
    cases t with
    | nil =>
      simp only [List.mem_singleton] at hx
      subst hx
      exact dtLe_refl _
    | cons b t2 =>
      rw [List.getLast_cons (List.cons_ne_nil b t2)]
      rcases List.mem_cons.mp hx with hxa | hxt
      · subst hxa
        have hmem := List.getLast_mem (List.cons_ne_nil b t2)
        exact List.rel_of_sorted_cons hsort _ hmem
      · exact ih (List.cons_ne_nil b t2) hsort.of_cons x hxt

lemma slideshowSorted_perm (files : List UploadedFile)
    (dateOf : UploadedFile → PyDateTime) :
    List.Perm (slideshowSorted files dateOf)
      ((files.filter isImageFile).map fun f => (f, dateOf f)) :=
  List.perm_insertionSort slideLe _

lemma slideshowSorted_sorted (files : List UploadedFile)
    (dateOf : UploadedFile → PyDateTime) :
    List.Sorted slideLe (slideshowSorted files dateOf) :=
  List.sorted_insertionSort slideLe _

lemma snd_mem_dates {files : List UploadedFile} {dateOf : UploadedFile → PyDateTime}
    {x : UploadedFile × PyDateTime}
    (hx : x ∈ slideshowSorted files dateOf) :
    x.2 ∈ (files.filter isImageFile).map dateOf := by
  have hx' := (slideshowSorted_perm files dateOf).mem_iff.mp hx
  obtain ⟨f, hf, rfl⟩ := List.mem_map.mp hx'
  exact List.mem_map_of_mem dateOf hf

lemma dates_mem_sorted {files : List UploadedFile} {dateOf : UploadedFile → PyDateTime}
    {d : PyDateTime} (hd : d ∈ (files.filter isImageFile).map dateOf) :
    ∃ x ∈ slideshowSorted files dateOf, x.2 = d := by
  obtain ⟨f, hf, rfl⟩ := List.mem_map.mp hd
  refine ⟨(f, dateOf f), ?_, rfl⟩
  exact (slideshowSorted_perm files dateOf).mem_iff.mpr
    (List.mem_map_of_mem (fun f => (f, dateOf f)) hf)

lemma slideshowSorted_head_min {files : List UploadedFile}
    {dateOf : UploadedFile → PyDateTime} {first : UploadedFile × PyDateTime}
    {rest : List (UploadedFile × PyDateTime)}
    (hs : slideshowSorted files dateOf = first :: rest) :
    ∀ d ∈ (files.filter isImageFile).map dateOf, dtLe first.2 d := by
  intro d hd
  obtain ⟨x, hx, rfl⟩ := dates_mem_sorted hd
  rw [hs] at hx
  have hsort := slideshowSorted_sorted files dateOf
  rw [hs] at hsort
  rcases List.mem_cons.mp hx with hxa | hxt
  · rw [hxa]
    exact dtLe_refl _
  · exact List.rel_of_sorted_cons hsort _ hxt

lemma slideshowSorted_getLast_max {files : List UploadedFile}
    {dateOf : UploadedFile → PyDateTime} {first : UploadedFile × PyDateTime}
    {rest : List (UploadedFile × PyDateTime)}
    (hs : slideshowSorted files dateOf = first :: rest) :
    ∀ d ∈ (files.filter isImageFile).map dateOf,
      dtLe d (((first :: rest).getLast (List.cons_ne_nil first rest)).2) := by
  intro d hd
  obtain ⟨x, hx, rfl⟩ := dates_mem_sorted hd
  rw [hs] at hx
  have hsort := slideshowSorted_sorted files dateOf
  rw [hs] at hsort
  exact sorted_le_getLast _ (List.cons_ne_nil first rest) hsort x hx

lemma slideshowSorted_nonempty {files : List UploadedFile}
    {dateOf : UploadedFile → PyDateTime} (h : files.filter isImageFile ≠ []) :
    slideshowSorted files dateOf ≠ [] := by
  intro hnil
  have hlen : (slideshowSorted files dateOf).length =
      (files.filter isImageFile).length := by
    unfold slideshowSorted
    rw [List.length_insertionSort, List.length_map]
  rw [hnil] at hlen
  exact h (List.length_eq_zero.mp hlen.symm)

/-- C3: for a non-empty filtered batch, the head of the sorted list
carries the earliest resolved timestamp and its last element the
latest; the video branch continues with the folder name
`deriveFolderName earliest latest`, which is the single-week label of
the earliest timestamp when the two ISO week numbers coincide and the
full-range label otherwise. -/
theorem c3_filename_branch (files : List UploadedFile)
    (dateOf : UploadedFile → PyDateTime) (h : files.filter isImageFile ≠ []) :
    ∃ first rest, slideshowSorted files dateOf = first :: rest ∧
      first.2 ∈ (files.filter isImageFile).map dateOf ∧
      ((first :: rest).getLast (List.cons_ne_nil first rest)).2 ∈
        (files.filter isImageFile).map dateOf ∧
      (∀ d ∈ (files.filter isImageFile).map dateOf, dtLe first.2 d) ∧
      (∀ d ∈ (files.filter isImageFile).map dateOf,
        dtLe d ((first :: rest).getLast (List.cons_ne_nil first rest)).2) ∧
      (∀ (env : SlideEnv) (output_dir : String),
        create_slideshow_video files dateOf env output_dir =
          slideshowEncode env output_dir
            (deriveFolderName first.2
              ((first :: rest).getLast (List.cons_ne_nil first rest)).2)
            first (first :: rest)) ∧
      deriveFolderName first.2 ((first :: rest).getLast (List.cons_ne_nil first rest)).2 =
        (if isoWeekNum first.2.rd =
            isoWeekNum ((first :: rest).getLast (List.cons_ne_nil first rest)).2.rd then
          (get_week_range first.2).1
        else rangeLabel first.2 ((first :: rest).getLast (List.cons_ne_nil first rest)).2) := by
  cases hsE : slideshowSorted files dateOf with
  | nil => exact absurd hsE (slideshowSorted_nonempty h)
  | cons first rest =>
    refine ⟨first, rest, rfl, ?_, ?_, slideshowSorted_head_min hsE,
      slideshowSorted_getLast_max hsE, ?_, rfl⟩
    · apply snd_mem_dates
      rw [hsE]
      exact List.mem_cons_self first rest
    · apply snd_mem_dates
      rw [hsE]
      exact List.getLast_mem (List.cons_ne_nil first rest)
    · intro env output_dir
      simp only [create_slideshow_video, hsE]

/-- Witness for C3 at a concrete one-image batch. -/
theorem c3_witness :
    ∃ first rest,
      slideshowSorted [⟨"a", "image/jpeg"⟩] (fun _ => ⟨9, 0⟩) = first :: rest ∧
        first.2 ∈ ([(⟨"a", "image/jpeg"⟩ : UploadedFile)].filter isImageFile).map
          (fun _ => (⟨9, 0⟩ : PyDateTime)) ∧
        ((first :: rest).getLast (List.cons_ne_nil first rest)).2 ∈
          ([(⟨"a", "image/jpeg"⟩ : UploadedFile)].filter isImageFile).map
            (fun _ => (⟨9, 0⟩ : PyDateTime)) ∧
        (∀ d ∈ ([(⟨"a", "image/jpeg"⟩ : UploadedFile)].filter isImageFile).map
            (fun _ => (⟨9, 0⟩ : PyDateTime)), dtLe first.2 d) ∧
        (∀ d ∈ ([(⟨"a", "image/jpeg"⟩ : UploadedFile)].filter isImageFile).map
            (fun _ => (⟨9, 0⟩ : PyDateTime)),
          dtLe d ((first :: rest).getLast (List.cons_ne_nil first rest)).2) ∧
        (∀ (env : SlideEnv) (output_dir : String),
          create_slideshow_video [⟨"a", "image/jpeg"⟩] (fun _ => ⟨9, 0⟩) env output_dir =
            slideshowEncode env output_dir
              (deriveFolderName first.2
                ((first :: rest).getLast (List.cons_ne_nil first rest)).2)
              first (first :: rest)) ∧
        deriveFolderName first.2
            ((first :: rest).getLast (List.cons_ne_nil first rest)).2 =
          (if isoWeekNum first.2.rd =
              isoWeekNum ((first :: rest).getLast (List.cons_ne_nil first rest)).2.rd then
            (get_week_range first.2).1
          else rangeLabel first.2
            ((first :: rest).getLast (List.cons_ne_nil first rest)).2) :=
  c3_filename_branch [⟨"a", "image/jpeg"⟩] (fun _ => ⟨9, 0⟩) (by decide)

/-- C10: whenever the earliest and latest resolved timestamps have
different ISO week numbers, the video folder name is the full-range
label whose two-digit year prefix is the EARLIEST timestamp's year mod
100 — the latest timestamp's year does not appear in the format. -/
theorem c10_range_label_year (files : List UploadedFile)
    (dateOf : UploadedFile → PyDateTime)
    (first : UploadedFile × PyDateTime) (rest : List (UploadedFile × PyDateTime))
    (hs : slideshowSorted files dateOf = first :: rest)
    (hiso : isoWeekNum first.2.rd ≠
      isoWeekNum ((first :: rest).getLast (List.cons_ne_nil first rest)).2.rd) :
    (∀ d ∈ (files.filter isImageFile).map dateOf, dtLe first.2 d) ∧
      deriveFolderName first.2 ((first :: rest).getLast (List.cons_ne_nil first rest)).2 =
        String.mk (rangeChars ((civilFromDays first.2.rd).1 % 100)
          (civilFromDays first.2.rd).2.1 (civilFromDays first.2.rd).2.2
          (civilFromDays ((first :: rest).getLast (List.cons_ne_nil first rest)).2.rd).2.1
          (civilFromDays ((first :: rest).getLast (List.cons_ne_nil first rest)).2.rd).2.2) := by
  refine ⟨slideshowSorted_head_min hs, ?_⟩
  rw [deriveFolderName, if_neg hiso]
  rfl

/-- Witness for C10 at a span crossing a calendar-year boundary:
earliest 0001-12-30 (day 363), latest 0002-01-02 (day 366); the label's
year prefix is year 1 mod 100, and the two dates' years really differ. -/
theorem c10_witness :
    deriveFolderName ⟨363, 0⟩ ⟨366, 0⟩ =
      String.mk (rangeChars ((civilFromDays 363).1 % 100) (civilFromDays 363).2.1
        (civilFromDays 363).2.2 (civilFromDays 366).2.1 (civilFromDays 366).2.2) ∧
      (civilFromDays 363).1 = 1 ∧ (civilFromDays 366).1 = 2 := by
  have h := c10_range_label_year [⟨"a", "image/jpeg"⟩, ⟨"b", "image/jpeg"⟩]
    (fun f => if f.name = "a" then ⟨363, 0⟩ else ⟨366, 0⟩)
    (⟨"a", "image/jpeg"⟩, ⟨363, 0⟩) [(⟨"b", "image/jpeg"⟩, ⟨366, 0⟩)]
    (by decide) (by decide)
  exact ⟨h.2, by decide, by decide⟩

/-- C9: the assembler separates its failure modes. (i) An input that is
empty after the image filter yields an absent result with the
"no image files" diagnostic. (ii) Past the first-image and writer
checks, per-frame decode failures are skipped, not fatal: the run
succeeds (when the output file materializes) and the reported processed
count is exactly the number of frames whose decode succeeded. (iii) If
zero frames were processed, the run fails with the distinct
"no images processed" diagnostic even though the empty-input check
passed. -/
theorem c9_failure_modes :
    (∀ (files : List UploadedFile) (dateOf : UploadedFile → PyDateTime)
        (env : SlideEnv) (output_dir : String),
      files.filter isImageFile = [] →
      create_slideshow_video files dateOf env output_dir =
        (none, "이미지 파일이 없습니다.")) ∧
    (∀ (files : List UploadedFile) (dateOf : UploadedFile → PyDateTime)
        (env : SlideEnv) (output_dir : String)
        (first : UploadedFile × PyDateTime) (rest : List (UploadedFile × PyDateTime)),
      slideshowSorted files dateOf = first :: rest →
      (env.decode1 first.1).isSome = true →
      env.writerOpens = true →
      env.outputOk = true →
      0 < processedCount env (first :: rest) →
      create_slideshow_video files dateOf env output_dir =
        (some (pyJoin output_dir
            (deriveFolderName first.2
              ((first :: rest).getLast (List.cons_ne_nil first rest)).2 ++ ".mov")),
          "비디오가 성공적으로 생성되었습니다: " ++
            (deriveFolderName first.2
              ((first :: rest).getLast (List.cons_ne_nil first rest)).2 ++ ".mov") ++
            " (" ++ toString (processedCount env (first :: rest)) ++ "개 이미지 처리)")) ∧
    (∀ (files : List UploadedFile) (dateOf : UploadedFile → PyDateTime)
        (env : SlideEnv) (output_dir : String)
        (first : UploadedFile × PyDateTime) (rest : List (UploadedFile × PyDateTime)),
      slideshowSorted files dateOf = first :: rest →
      (env.decode1 first.1).isSome = true →
      env.writerOpens = true →
      processedCount env (first :: rest) = 0 →
      create_slideshow_video files dateOf env output_dir =
        (none, "처리된 이미지가 없습니다.")) := by
  refine ⟨?_, ?_, ?_⟩
  · intro files dateOf env output_dir h
    have hnil : slideshowSorted files dateOf = [] := by
      unfold slideshowSorted
      rw [h]
      rfl
    simp only [create_slideshow_video, hnil]
  · intro files dateOf env output_dir first rest hs h2 h3 h4 h5
    obtain ⟨fr, hfr⟩ := Option.isSome_iff_exists.mp h2
    simp only [create_slideshow_video, hs, slideshowEncode, hfr, h3, h4, if_true]
    rw [if_neg (show ¬processedCount env (first :: rest) = 0 by omega)]
  · intro files dateOf env output_dir first rest hs h2 h3 h4
    obtain ⟨fr, hfr⟩ := Option.isSome_iff_exists.mp h2
    simp only [create_slideshow_video, hs, slideshowEncode, hfr, h3, if_true]
    rw [if_pos h4]

/-- Witness for C9: an all-non-image batch gives the "no image files"
diagnostic; a three-image batch whose middle image fails the per-frame
decode still succeeds with processed count 2; a batch whose only image
decodes for the dimension read but fails every per-frame read gives the
"no images processed" diagnostic. -/
theorem c9_witness :
    create_slideshow_video [⟨"x", "text/plain"⟩] (fun _ => ⟨3, 0⟩)
        ⟨fun _ => some ⟨1, 1⟩, fun _ => some ⟨1, 1⟩, true, true⟩ "out" =
      (none, "이미지 파일이 없습니다.") ∧
      create_slideshow_video
          [⟨"a", "image/jpeg"⟩, ⟨"b", "image/jpeg"⟩, ⟨"c", "image/jpeg"⟩]
          (fun f => if f.name = "a" then ⟨3, 0⟩ else if f.name = "b" then ⟨5, 0⟩ else ⟨9, 0⟩)
          ⟨fun _ => some ⟨1, 1⟩, fun f => if f.name = "b" then none else some ⟨1, 1⟩,
            true, true⟩ "out" =
        (some (pyJoin "out" (deriveFolderName ⟨3, 0⟩ ⟨9, 0⟩ ++ ".mov")),
          "비디오가 성공적으로 생성되었습니다: " ++ (deriveFolderName ⟨3, 0⟩ ⟨9, 0⟩ ++ ".mov") ++
            " (" ++ toString 2 ++ "개 이미지 처리)") ∧
      create_slideshow_video [⟨"a", "image/jpeg"⟩] (fun _ => ⟨3, 0⟩)
          ⟨fun _ => some ⟨1, 1⟩, fun _ => none, true, true⟩ "out" =
        (none, "처리된 이미지가 없습니다.") := by
  refine ⟨c9_failure_modes.1 _ _ _ _ (by decide), ?_, ?_⟩
  · have h := c9_failure_modes.2.1
      [⟨"a", "image/jpeg"⟩, ⟨"b", "image/jpeg"⟩, ⟨"c", "image/jpeg"⟩]
      (fun f => if f.name = "a" then ⟨3, 0⟩ else if f.name = "b" then ⟨5, 0⟩ else ⟨9, 0⟩)
      ⟨fun _ => some ⟨1, 1⟩, fun f => if f.name = "b" then none else some ⟨1, 1⟩,
        true, true⟩ "out"
      (⟨"a", "image/jpeg"⟩, ⟨3, 0⟩)
      [(⟨"b", "image/jpeg"⟩, ⟨5, 0⟩), (⟨"c", "image/jpeg"⟩, ⟨9, 0⟩)]
      (by decide) rfl rfl rfl (by decide)
    exact h
  · exact c9_failure_modes.2.2 [⟨"a", "image/jpeg"⟩] (fun _ => ⟨3, 0⟩)
      ⟨fun _ => some ⟨1, 1⟩, fun _ => none, true, true⟩ "out"
      (⟨"a", "image/jpeg"⟩, ⟨3, 0⟩) [] (by decide) rfl rfl (by decide)
